import Mathlib

/-!
Verification of the annotation canonicalization pipeline of
tensorturtle/mobilenet-ssd-training: the geometric coordinate transforms,
the COCO- and YOLO-format annotation readers
(src/vision/datasets/coco_dataset.py, src/vision/datasets/yolo_dataset.py),
and the dataset container that serves records with lazy image decode,
pixel-to-unit-interval box normalization, and optional class balancing.

Pixel and box coordinates are modelled as rationals (the Python code uses
floats; every property proved here is an algebraic identity or an ordering
fact that holds exactly over ℚ). Python dicts are modelled as association
lists with insertion-order semantics (`dictInsert`), numpy arrays of boxes
as `List Box`, and the mutable array heap (needed for the aliasing claims
about `copy.copy`) as an explicit store of cells.
-/

/-- A bounding box as the four positions 0..3 of the numpy row
[xmin, ymin, xmax, ymax] (pixel or normalized coordinates). -/
structure Box where
  x0 : ℚ
  y0 : ℚ
  x1 : ℚ
  y1 : ℚ
deriving DecidableEq, Repr

/-- A decoded image buffer, reduced to its numpy shape triple; the datasets
only ever consult `image.shape[0]`, `image.shape[1]`, `image.shape[2]`. -/
structure Image where
  shape0 : ℕ
  shape1 : ℕ
  shape2 : ℕ
deriving DecidableEq, Repr

/-- Modelled from the spec: `xywh_to_xyxy` lives in vision/utils/misc.py,
which is absent from src/ (only its import sites are present).
Spec 4.1: xmin=x, ymin=y, xmax=x+w, ymax=y+h. -/
def xywh_to_xyxy (x y w h : ℚ) : Box :=
  ⟨x, y, x + w, y + h⟩

/-- Modelled from the spec: `yolo_to_xyxy` lives in vision/utils/misc.py,
which is absent from src/. Spec 4.1: xmin=x_center−w/2, ymin=y_center−h/2,
xmax=x_center+w/2, ymax=y_center+h/2, unclamped. -/
def yolo_to_xyxy (x_center y_center w h : ℚ) : Box :=
  ⟨x_center - w / 2, y_center - h / 2, x_center + w / 2, y_center + h / 2⟩

/-- Modelled from the spec: `xyxy_norm_to_abs` lives in vision/utils/misc.py,
which is absent from src/. Spec 4.1: multiplies x-coordinates by width and
y-coordinates by height. -/
def xyxy_norm_to_abs (b : Box) (width height : ℚ) : Box :=
  ⟨b.x0 * width, b.y0 * height, b.x1 * width, b.y1 * height⟩

/-- Modelled from the spec: the normalization direction named `xyxy_norm` in
the spec's round-trip law has no definition under src/. Spec glossary:
scaling pixel coordinates to the unit interval by dividing by image
width/height. -/
def xyxy_norm (b : Box) (width height : ℚ) : Box :=
  ⟨b.x0 / width, b.y0 / height, b.x1 / width, b.y1 / height⟩

/-! ## Python dict model

Association lists with Python dict insertion semantics: inserting an
existing key updates its value in place (key order preserved), a fresh key
is appended. Used for `class_dict`, `cat_map` and `id_to_filename`. -/

/-- One Python dict assignment `d[k] = v`. -/
def dictInsert {α β : Type} [DecidableEq α] (d : List (α × β)) (k : α) (v : β) :
    List (α × β) :=
  if (d.map Prod.fst).contains k then
    d.map (fun p => if p.1 = k then (p.1, v) else p)
  else d ++ [(k, v)]

/-- Folding a sequence of assignments into an existing dict: Python's
`dict.update` / `{**a, **b}` / dict-comprehension semantics. -/
def dictExtend {α β : Type} [DecidableEq α] (d : List (α × β))
    (pairs : List (α × β)) : List (α × β) :=
  pairs.foldl (fun acc p => dictInsert acc p.1 p.2) d

/-- Python dict lookup `d[k]`, `none` meaning KeyError. -/
def dictFind {α β : Type} [DecidableEq α] (d : List (α × β)) (k : α) : Option β :=
  (d.find? (fun p => p.1 = k)).map Prod.snd

theorem dictInsert_of_not_mem {α β : Type} [DecidableEq α]
    (d : List (α × β)) (k : α) (v : β) (h : k ∉ d.map Prod.fst) :
    dictInsert d k v = d ++ [(k, v)] := by
  unfold dictInsert
  rw [if_neg]
  simpa using h

theorem dictExtend_of_disjoint {α β : Type} [DecidableEq α]
    (pairs : List (α × β)) : ∀ (d : List (α × β)),
    (pairs.map Prod.fst).Nodup →
    (∀ k, k ∈ pairs.map Prod.fst → k ∉ d.map Prod.fst) →
    dictExtend d pairs = d ++ pairs := by
  induction pairs with
  | nil => intro d _ _; simp [dictExtend]
  | cons p ps ih =>
    intro d hnd hdisj
    have hp : p.1 ∉ d.map Prod.fst := hdisj p.1 (by simp)
    have hstep : dictInsert d p.1 p.2 = d ++ [(p.1, p.2)] :=
      dictInsert_of_not_mem d p.1 p.2 hp
    have hnd' : (ps.map Prod.fst).Nodup := by
      simpa using hnd.of_cons
    have hps_ne : p.1 ∉ ps.map Prod.fst := by
      have h := hnd
      simp only [List.map_cons, List.nodup_cons] at h
      exact h.1
    have hdisj' : ∀ k, k ∈ ps.map Prod.fst → k ∉ (d ++ [(p.1, p.2)]).map Prod.fst := by
      intro k hk
      simp only [List.map_append, List.mem_append] at *
      rintro (hd | h1)
      · exact hdisj k (by simp [hk]) hd
      · simp at h1
        exact hps_ne (h1 ▸ hk)
    have hrec := ih (d ++ [(p.1, p.2)]) hnd' hdisj'
    simp only [dictExtend, List.foldl_cons]
    rw [hstep]
    simp only [dictExtend] at hrec
    rw [hrec]
    simp

/-! ## Canonical annotation records

coco_dataset.py keeps records keyed by `image_id`, yolo_dataset.py by
`image_path`; the record shape is otherwise identical, so the image
reference type is a parameter. -/

/-- One entry of `self.data`: the dict with keys image reference,
`boxes` (shape (N,4)) and `labels` (shape (N,)). -/
structure AnnotationRecord (ι : Type) where
  image_ref : ι
  boxes : List Box
  labels : List ℤ
deriving DecidableEq, Repr

/-! ## COCODataset._read_data (coco_dataset.py lines 127-186) -/

/-- One annotation instance of the COCO index: its `bbox` field
[x, y, width, height] and its `category_id`. -/
structure CocoAnn where
  bbox_x : ℚ
  bbox_y : ℚ
  bbox_w : ℚ
  bbox_h : ℚ
  category_id : ℤ
deriving DecidableEq, Repr

/-- One image entry of the COCO index together with the environment facts
`_read_data` consults for it: whether `os.path.isfile` holds for its
resolved path (line 156), and the annotations referencing it. -/
structure CocoImageEntry where
  image_id : ℤ
  file_on_disk : Bool
  anns : List CocoAnn
deriving DecidableEq, Repr

/-- The record built for a retained image (lines 161-183): boxes are the
annotation bboxes through `xywh_to_xyxy`, labels the raw category ids, in
annotation order. -/
def cocoRecordOf (e : CocoImageEntry) : AnnotationRecord ℤ :=
  { image_ref := e.image_id
    boxes := e.anns.map (fun a => xywh_to_xyxy a.bbox_x a.bbox_y a.bbox_w a.bbox_h)
    labels := e.anns.map (fun a => a.category_id) }

/-- Loop body of the scan (lines 150-183): a missing file logs the id,
bumps the skip counter and emits no record; otherwise the record is
appended. Accumulator: (data, skipped_images, log of skipped ids). -/
def cocoReadStep (acc : List (AnnotationRecord ℤ) × ℕ × List ℤ)
    (e : CocoImageEntry) : List (AnnotationRecord ℤ) × ℕ × List ℤ :=
  if e.file_on_disk then
    (acc.1 ++ [cocoRecordOf e], acc.2.1, acc.2.2)
  else
    (acc.1, acc.2.1 + 1, acc.2.2 ++ [e.image_id])

/-- The full scan over `all_image_ids`. -/
def cocoReadData (entries : List CocoImageEntry) :
    List (AnnotationRecord ℤ) × ℕ × List ℤ :=
  entries.foldl cocoReadStep ([], 0, [])

/-- `class_names = ['BACKGROUND'] + pure_class_names` (line 132). -/
def cocoClassNames (pure_class_names : List String) : List String :=
  "BACKGROUND" :: pure_class_names

/-- `class_dict = {class_name : i for i, class_name in enumerate(class_names)}`
(line 133), with Python dict-comprehension semantics. -/
def cocoClassDict (class_names : List String) : List (String × ℕ) :=
  dictExtend [] (class_names.enum.map (fun p => (p.2, p.1)))

/-! ## YOLODataset._read_data (yolo_dataset.py lines 77-130) -/

/-- One whitespace-separated row of a label file, already split into its
fields `raw_category_id x_center y_center width height`. -/
structure YoloRow where
  raw_cat : ℤ
  x_center : ℚ
  y_center : ℚ
  w : ℚ
  h : ℚ
deriving DecidableEq, Repr

/-- One label file of a clip together with the decoded paired image
(only the image's shape is consulted: lines 104-105). -/
structure YoloFrame where
  label_stem : String
  rows : List YoloRow
  image : Image
deriving DecidableEq, Repr

/-- One clip directory: its label files (det_labels/*.txt, each with the
paired still) and the count of det_stills/*.jpg files (only the count is
consulted by the assert on line 95). -/
structure YoloClip where
  name : String
  frames : List YoloFrame
  still_count : ℕ
deriving DecidableEq, Repr

/-- `cat_map = dict(zip(list(summary['categories'].values()), range(1, len+1)))`
(line 81): the categories table is a name → raw-id document; its values,
in file order, are the raw ids, mapped to 1-based consecutive indices. -/
def yoloCatMap (categories : List (String × ℤ)) : List (ℤ × ℕ) :=
  dictExtend []
    ((categories.map Prod.snd).zip (List.range' 1 categories.length))

/-- `class_dict = {**{'BACKGROUND': 0}, **summary['categories']}` followed by
`class_dict.update(zip(class_dict, range(len(class_dict))))`
(lines 83-87). -/
def yoloClassDict (categories : List (String × ℤ)) : List (String × ℤ) :=
  let merged := dictExtend [("BACKGROUND", (0 : ℤ))] categories
  dictExtend merged
    ((merged.map Prod.fst).zip ((List.range merged.length).map Int.ofNat))

/-- `class_names = [key for key in class_dict.keys()]` (line 89). -/
def yoloClassNames (categories : List (String × ℤ)) : List String :=
  (yoloClassDict categories).map Prod.fst

/-- Pixel box of one row (lines 113-120): `yolo_to_xyxy` on the normalized
fields, then `xyxy_norm_to_abs` with width = image.shape[1] and
height = image.shape[0]. -/
def yoloRowBox (r : YoloRow) (image : Image) : Box :=
  xyxy_norm_to_abs (yolo_to_xyxy r.x_center r.y_center r.w r.h)
    (image.shape1 : ℚ) (image.shape0 : ℚ)

/-- The row loop of one label file (lines 109-124): boxes are vstacked and
labels hstacked in row order; `self.cat_map[int(annotation_info[0])]`
raises KeyError when the raw id is absent, aborting the whole load. -/
def yoloProcessRows (cat_map : List (ℤ × ℕ)) (image : Image)
    (acc : List Box × List ℤ) :
    List YoloRow → Except String (List Box × List ℤ)
  | [] => .ok acc
  | r :: rs =>
    match dictFind cat_map r.raw_cat with
    | none => .error ("KeyError: " ++ toString r.raw_cat)
    | some c =>
      yoloProcessRows cat_map image
        (acc.1 ++ [yoloRowBox r image], acc.2 ++ [(c : ℤ)]) rs

/-- `image_path = video_name_dir / "det_stills" / f"stills_{frame_no}.jpg"`
with `frame_no = label_path.stem[7:]` (lines 100-101). -/
def yoloImagePath (clip_name : String) (f : YoloFrame) : String :=
  clip_name ++ "/det_stills/stills_" ++ (f.label_stem.drop 7) ++ ".jpg"

/-- Record built from one label file (lines 103-129), starting from the
empty (0,4) and (0,) arrays. -/
def yoloProcessFrame (cat_map : List (ℤ × ℕ)) (clip_name : String)
    (f : YoloFrame) : Except String (AnnotationRecord String) :=
  match yoloProcessRows cat_map f.image ([], []) f.rows with
  | .error e => .error e
  | .ok (bs, ls) =>
    .ok { image_ref := yoloImagePath clip_name f, boxes := bs, labels := ls }

/-- The label-file loop of one clip (lines 98-129), appending to the data
accumulated so far. -/
def yoloProcessFrames (cat_map : List (ℤ × ℕ)) (clip_name : String)
    (acc : List (AnnotationRecord String)) :
    List YoloFrame → Except String (List (AnnotationRecord String))
  | [] => .ok acc
  | f :: fs =>
    match yoloProcessFrame cat_map clip_name f with
    | .error e => .error e
    | .ok rec => yoloProcessFrames cat_map clip_name (acc ++ [rec]) fs

/-- One clip (lines 92-129): the assert on line 95 compares the label-file
count with the still-file count and is fatal for the whole load. -/
def yoloProcessClip (cat_map : List (ℤ × ℕ))
    (acc : List (AnnotationRecord String)) (clip : YoloClip) :
    Except String (List (AnnotationRecord String)) :=
  if clip.frames.length = clip.still_count then
    yoloProcessFrames cat_map clip.name acc clip.frames
  else
    .error ("AssertionError: " ++ clip.name)

/-- The clip loop of `_read_data` (lines 90-129). -/
def yoloReadClips (cat_map : List (ℤ × ℕ))
    (acc : List (AnnotationRecord String)) :
    List YoloClip → Except String (List (AnnotationRecord String))
  | [] => .ok acc
  | c :: cs =>
    match yoloProcessClip cat_map acc c with
    | .error e => .error e
    | .ok acc2 => yoloReadClips cat_map acc2 cs

/-- `_read_data`'s data result for the YOLO source: the clip scan from the
empty data list, with the cat_map built from the summary file. -/
def yoloReadData (categories : List (String × ℤ)) (clips : List YoloClip) :
    Except String (List (AnnotationRecord String)) :=
  yoloReadClips (yoloCatMap categories) [] clips

/-! ## Dataset container (_getitem, __len__, __init__ balancing)

The container logic is duplicated line for line in COCODataset and
YOLODataset (coco_dataset.py lines 57-112, yolo_dataset.py lines 140-195);
it is modelled once, parametric in the image-reference type, and the two
variants are the instantiations at ℤ (image ids) and String (paths). -/

/-- Python list subscription `xs[i]` with an int index: a negative index
has the length added once; the result must then land in [0, len). `none`
is IndexError. -/
def pyGet {α : Type} (xs : List α) (i : ℤ) : Option α :=
  let j := if i < 0 then i + xs.length else i
  if 0 ≤ j ∧ j < (xs.length : ℤ) then xs.get? j.toNat else none

/-- The image/boxes/labels triple flowing through `_getitem`. -/
structure Served (ι : Type) where
  image_ref : ι
  image : Image
  boxes : List Box
  labels : List ℤ

/-- One Dataset variant: its records, the image decode (total here; decode
errors are outside the indexing and normalization claims), and the two
optional caller-supplied transforms. -/
structure DatasetModel (ι : Type) where
  data : List (AnnotationRecord ι)
  read_image : ι → Image
  transform : Option (Image → List Box → List ℤ → Image × List Box × List ℤ)
  target_transform : Option (List Box → List ℤ → List Box × List ℤ)

/-- `if self.transform: image, boxes, labels = self.transform(image, boxes, labels)`. -/
def DatasetModel.transformStep {ι : Type} (d : DatasetModel ι)
    (image : Image) (boxes : List Box) (labels : List ℤ) :
    Image × List Box × List ℤ :=
  match d.transform with
  | some t => t image boxes labels
  | none => (image, boxes, labels)

/-- The in-place normalization block:
`width = image.shape[1]; height = image.shape[2];`
`boxes[:,0] /= width; boxes[:,1] /= height; boxes[:,2] /= width;`
`boxes[:,3] /= height` (coco_dataset.py lines 96-101, yolo_dataset.py
lines 178-185). The code names shape[1] `width` and shape[2] `height`. -/
def normalizeStep (image : Image) (boxes : List Box) : List Box :=
  let width : ℚ := (image.shape1 : ℚ)
  let height : ℚ := (image.shape2 : ℚ)
  boxes.map (fun b => ⟨b.x0 / width, b.y0 / height, b.x1 / width, b.y1 / height⟩)

/-- `if self.target_transform: boxes, labels = self.target_transform(boxes, labels)`. -/
def DatasetModel.targetStep {ι : Type} (d : DatasetModel ι)
    (boxes : List Box) (labels : List ℤ) : List Box × List ℤ :=
  match d.target_transform with
  | some t => t boxes labels
  | none => (boxes, labels)

/-- The image/boxes/labels triple right after the transform step for one
record: lazy decode of the record's image, then the optional transform. -/
def DatasetModel.served {ι : Type} (d : DatasetModel ι)
    (info : AnnotationRecord ι) : Image × List Box × List ℤ :=
  d.transformStep (d.read_image info.image_ref) info.boxes info.labels

/-- The value-level content of `_getitem(index)`: record lookup by Python
subscription, lazy decode, transform, normalization, target transform.
(The defensive `copy.copy` calls are frame effects, modelled separately in
the store semantics below.) -/
def DatasetModel.getitem {ι : Type} (d : DatasetModel ι) (index : ℤ) :
    Option (Served ι) :=
  match pyGet d.data index with
  | none => none
  | some info =>
    let t := d.served info
    let boxes2 := normalizeStep t.1 t.2.1
    let fin := d.targetStep boxes2 t.2.2
    some { image_ref := info.image_ref, image := t.1, boxes := fin.1, labels := fin.2 }

/-- `__len__`. -/
def DatasetModel.lengthOf {ι : Type} (d : DatasetModel ι) : ℕ :=
  d.data.length

/-- Method names defined by class COCODataset (coco_dataset.py): Python
resolves `self._balance_data` against this set. -/
def cocoMethodNames : List String :=
  ["__init__", "_load_cocoapi", "_id_to_filename", "_getitem", "__getitem__",
   "get_annotation", "get_image", "_read_data", "_xywh_to_xyxy", "__len__",
   "__repr__", "_read_image"]

/-- Tail of COCODataset.__init__ (lines 30-33): when the flag is set it
evaluates `self._balance_data()`, but COCODataset defines no method of that
name, so attribute lookup raises AttributeError and construction aborts. -/
def cocoInitBalance (data : List (AnnotationRecord ℤ)) (balance_flag : Bool) :
    Except String (List (AnnotationRecord ℤ)) :=
  if balance_flag then
    if cocoMethodNames.contains "_balance_data" then
      .ok data
    else
      .error "AttributeError: COCODataset object has no attribute _balance_data"
  else .ok data

/-- Tail of YOLODataset.__init__ (yolo_dataset.py lines 69-72): it stores
the Bool flag in `self.balance_data` and, when the flag is set, evaluates
`self.balance_data()` — a call on the Bool itself, which raises TypeError
and aborts construction. -/
def yoloInitBalance (data : List (AnnotationRecord String))
    (balance_flag : Bool) : Except String (List (AnnotationRecord String)) :=
  if balance_flag then
    .error "TypeError: bool object is not callable"
  else .ok data

/-! ## Store semantics for the defensive copies in _getitem

`boxes = copy.copy(image_info['boxes'])`, `labels = copy.copy(...)` followed
by the in-place `/=` on the copy (coco_dataset.py lines 60-101,
yolo_dataset.py lines 143-185). numpy arrays are mutable buffers; the store
maps cell ids to array values, `copy.copy` allocates a fresh cell, and the
augmented-division writes through the returned cell only. -/

/-- A heap of mutable array cells. -/
structure Store (α : Type) where
  cells : List α

/-- Dereference a cell id. -/
def Store.read {α : Type} (s : Store α) (r : ℕ) : Option α :=
  s.cells.get? r

/-- Overwrite a cell in place. -/
def Store.write {α : Type} (s : Store α) (r : ℕ) (v : α) : Store α :=
  ⟨s.cells.set r v⟩

/-- Allocate a fresh cell (`copy.copy` / array construction). -/
def Store.alloc {α : Type} (s : Store α) (v : α) : Store α × ℕ :=
  (⟨s.cells ++ [v]⟩, s.cells.length)

/-- A stored record: cell ids of its boxes and labels arrays, plus the
decoded image for the access (transforms left off: the claim concerns the
copy-then-normalize path). -/
structure StoredRecord where
  boxesRef : ℕ
  labelsRef : ℕ
  image : Image

/-- `_getitem`'s frame effects on the two heaps: copy both arrays into
fresh cells, normalize the box copy in place, return the copies' ids. -/
def getitemStore (bs : Store (List Box)) (ls : Store (List ℤ))
    (records : List StoredRecord) (index : ℤ) :
    Option (Store (List Box) × Store (List ℤ) × ℕ × ℕ) :=
  match pyGet records index with
  | none => none
  | some rec =>
    let bval := (bs.read rec.boxesRef).getD []
    let lval := (ls.read rec.labelsRef).getD []
    let a1 := bs.alloc bval
    let a2 := ls.alloc lval
    let bs2 := a1.1.write a1.2 (normalizeStep rec.image ((a1.1.read a1.2).getD []))
    some (bs2, a2.1, a1.2, a2.2)

/-! ## Helper lemmas -/

/-- Result discriminator for fatal-load claims. -/
def isErr {ε α : Type} : Except ε α → Bool
  | .error _ => true
  | .ok _ => false

theorem pyGet_isSome {α : Type} (xs : List α) (i : ℤ) :
    (pyGet xs i).isSome = true ↔
      (-(xs.length : ℤ) ≤ i ∧ i < (xs.length : ℤ)) := by
  unfold pyGet
  by_cases hneg : i < 0
  · simp only [if_pos hneg]
    by_cases hin : 0 ≤ i + (xs.length : ℤ) ∧ i + (xs.length : ℤ) < (xs.length : ℤ)
    · rw [if_pos hin]
      have hlt : (i + (xs.length : ℤ)).toNat < xs.length := by omega
      rw [List.get?_eq_get hlt]
      simp only [Option.isSome_some, true_iff]
      omega
    · rw [if_neg hin]
      simp only [Option.isSome_none, Bool.false_eq_true, false_iff]
      omega
  · simp only [if_neg hneg]
    by_cases hin : 0 ≤ i ∧ i < (xs.length : ℤ)
    · rw [if_pos hin]
      have hlt : i.toNat < xs.length := by omega
      rw [List.get?_eq_get hlt]
      simp only [Option.isSome_some, true_iff]
      omega
    · rw [if_neg hin]
      simp only [Option.isSome_none, Bool.false_eq_true, false_iff]
      omega

theorem getitem_isSome_eq {ι : Type} (d : DatasetModel ι) (i : ℤ) :
    (d.getitem i).isSome = (pyGet d.data i).isSome := by
  unfold DatasetModel.getitem
  cases pyGet d.data i <;> rfl

/-! ## C10 -/

/-- C10: for every box and every positive width and height, normalizing to
the unit interval (`xyxy_norm`) and mapping back to pixels
(`xyxy_norm_to_abs`) is the identity — exact over ℚ, hence within any
floating-point tolerance. -/
theorem c10_norm_abs_round_trip (b : Box) (w h : ℚ) (hw : 0 < w) (hh : 0 < h) :
    xyxy_norm_to_abs (xyxy_norm b w h) w h = b := by
  have hw0 : w ≠ 0 := ne_of_gt hw
  have hh0 : h ≠ 0 := ne_of_gt hh
  cases b with
  | mk x0 y0 x1 y1 =>
    unfold xyxy_norm xyxy_norm_to_abs
    simp only
    rw [div_mul_cancel₀ _ hw0, div_mul_cancel₀ _ hh0,
      div_mul_cancel₀ _ hw0, div_mul_cancel₀ _ hh0]

theorem c10_norm_abs_round_trip_witness :
    (0 : ℚ) < 100 ∧ (0 : ℚ) < 50 ∧
    xyxy_norm_to_abs (xyxy_norm ⟨10, 20, 40, 60⟩ 100 50) 100 50 =
      (⟨10, 20, 40, 60⟩ : Box) :=
  ⟨by norm_num, by norm_num,
    c10_norm_abs_round_trip ⟨10, 20, 40, 60⟩ 100 50 (by norm_num) (by norm_num)⟩

/-! ## C3 -/

/-- C3 (code bug): enabling class balancing at construction never reaches a
balancing pass on either variant. COCODataset.__init__ calls
`self._balance_data()` but the class defines no such method (AttributeError);
YOLODataset.__init__ calls `self.balance_data()` on the Bool flag it has just
stored (TypeError). Construction aborts instead of balancing. -/
theorem c3_balancing_crashes_at_construction :
    (∀ data : List (AnnotationRecord ℤ), cocoInitBalance data true =
      .error "AttributeError: COCODataset object has no attribute _balance_data") ∧
    (∀ data : List (AnnotationRecord String), yoloInitBalance data true =
      .error "TypeError: bool object is not callable") :=
  ⟨fun _ => rfl, fun _ => rfl⟩

/-! ## C7 -/

/-- A one-record COCO-variant dataset used to exhibit Python's
negative-index wraparound on `self.data[index]`. -/
def dsNeg : DatasetModel ℤ :=
  { data := [{ image_ref := 7, boxes := [⟨0, 0, 10, 10⟩], labels := [1] }]
    read_image := fun _ => ⟨100, 100, 3⟩
    transform := none
    target_transform := none }

/-- C7 counterexample: the claim says every negative index fails, but
`self.data[index]` is Python list subscription, so index −1 on a one-record
dataset succeeds (it serves the last record). -/
theorem c7_counterexample_neg_index_succeeds :
    (dsNeg.getitem (-1)).isSome = true := by
  rw [getitem_isSome_eq]
  rw [pyGet_isSome]
  constructor <;> norm_num [dsNeg]

/-- C7 (amended): `get(index)` succeeds exactly when
−length ≤ index < length (Python subscription adds the length to a negative
index once); every index outside that range raises IndexError. -/
theorem c7_index_range (ι : Type) (d : DatasetModel ι) (i : ℤ) :
    (d.getitem i).isSome = true ↔
      (-(d.data.length : ℤ) ≤ i ∧ i < (d.data.length : ℤ)) := by
  rw [getitem_isSome_eq]
  exact pyGet_isSome d.data i

/-! ## C5 -/

theorem cocoReadData_shift (ys : List CocoImageEntry) :
    ∀ (d : List (AnnotationRecord ℤ)) (k : ℕ) (lg : List ℤ),
    ys.foldl cocoReadStep (d, k, lg) =
      (d ++ (cocoReadData ys).1, k + (cocoReadData ys).2.1,
       lg ++ (cocoReadData ys).2.2) := by
  induction ys with
  | nil => intro d k lg; simp [cocoReadData]
  | cons e es ih =>
    intro d k lg
    by_cases he : e.file_on_disk
    · have h0 : cocoReadStep (d, k, lg) e = (d ++ [cocoRecordOf e], k, lg) := by
        simp [cocoReadStep, he]
      have h1 : cocoReadStep ([], 0, []) e = ([cocoRecordOf e], 0, []) := by
        simp [cocoReadStep, he]
      have h2 : cocoReadData (e :: es) =
          (cocoRecordOf e :: (cocoReadData es).1, (cocoReadData es).2.1,
           (cocoReadData es).2.2) := by
        unfold cocoReadData
        simp only [List.foldl_cons]
        rw [h1, ih [cocoRecordOf e] 0 []]
        simp [cocoReadData]
      rw [List.foldl_cons, h0, ih (d ++ [cocoRecordOf e]) k lg, h2]
      simp
    · have h0 : cocoReadStep (d, k, lg) e = (d, k + 1, lg ++ [e.image_id]) := by
        simp [cocoReadStep, he]
      have h1 : cocoReadStep ([], 0, []) e = ([], 1, [e.image_id]) := by
        simp [cocoReadStep, he]
      have h2 : cocoReadData (e :: es) =
          ((cocoReadData es).1, 1 + (cocoReadData es).2.1,
           e.image_id :: (cocoReadData es).2.2) := by
        unfold cocoReadData
        simp only [List.foldl_cons]
        rw [h1, ih [] 1 [e.image_id]]
        simp [cocoReadData]
      rw [List.foldl_cons, h0, ih d (k + 1) (lg ++ [e.image_id]), h2]
      refine Prod.ext rfl (Prod.ext ?_ ?_) <;> simp
      omega

/-- C5: during the COCO scan, an image entry whose file is absent on disk
emits no record, bumps the skip counter by exactly one, logs its id as the
diagnostic, and the scan continues over the remaining entries. -/
theorem c5_missing_coco_image_skipped (xs ys : List CocoImageEntry)
    (e : CocoImageEntry) (h : e.file_on_disk = false) :
    cocoReadData (xs ++ e :: ys) =
      ((cocoReadData (xs ++ ys)).1,
       (cocoReadData (xs ++ ys)).2.1 + 1,
       (cocoReadData xs).2.2 ++ e.image_id :: (cocoReadData ys).2.2) := by
  have hstep : cocoReadStep (cocoReadData xs) e =
      ((cocoReadData xs).1, (cocoReadData xs).2.1 + 1,
       (cocoReadData xs).2.2 ++ [e.image_id]) := by
    simp [cocoReadStep, h]
  have hL : cocoReadData (xs ++ e :: ys) =
      ((cocoReadData xs).1 ++ (cocoReadData ys).1,
       ((cocoReadData xs).2.1 + 1) + (cocoReadData ys).2.1,
       ((cocoReadData xs).2.2 ++ [e.image_id]) ++ (cocoReadData ys).2.2) := by
    show (xs ++ e :: ys).foldl cocoReadStep ([], 0, []) = _
    rw [List.foldl_append, List.foldl_cons]
    show List.foldl cocoReadStep (cocoReadStep (cocoReadData xs) e) ys = _
    rw [hstep, cocoReadData_shift ys]
  have hR : cocoReadData (xs ++ ys) =
      ((cocoReadData xs).1 ++ (cocoReadData ys).1,
       (cocoReadData xs).2.1 + (cocoReadData ys).2.1,
       (cocoReadData xs).2.2 ++ (cocoReadData ys).2.2) := by
    show (xs ++ ys).foldl cocoReadStep ([], 0, []) = _
    rw [List.foldl_append]
    show List.foldl cocoReadStep (cocoReadData xs) ys = _
    rw [cocoReadData_shift ys]
  rw [hL, hR]
  refine Prod.ext rfl (Prod.ext ?_ ?_) <;> simp
  omega

/-- Concrete COCO image entries for the C5 witness: a present image with
one annotation, a missing image, a present annotation-free image. -/
def cocoE1 : CocoImageEntry := ⟨1, true, [⟨0, 0, 10, 10, 1⟩]⟩

def cocoE2 : CocoImageEntry := ⟨2, false, []⟩

def cocoE3 : CocoImageEntry := ⟨3, true, []⟩

theorem c5_missing_coco_image_skipped_witness :
    cocoE2.file_on_disk = false ∧
    cocoReadData ([cocoE1] ++ cocoE2 :: [cocoE3]) =
      ((cocoReadData ([cocoE1] ++ [cocoE3])).1,
       (cocoReadData ([cocoE1] ++ [cocoE3])).2.1 + 1,
       (cocoReadData [cocoE1]).2.2 ++ cocoE2.image_id :: (cocoReadData [cocoE3]).2.2) :=
  ⟨rfl, c5_missing_coco_image_skipped [cocoE1] [cocoE3] cocoE2 rfl⟩

/-! ## C6 -/

theorem yoloReadClips_err_of_mismatch (cat_map : List (ℤ × ℕ)) :
    ∀ (clips : List YoloClip) (acc : List (AnnotationRecord String))
      (c : YoloClip), c ∈ clips → c.frames.length ≠ c.still_count →
    isErr (yoloReadClips cat_map acc clips) = true := by
  intro clips
  induction clips with
  | nil => intro acc c hc _; exact absurd hc (List.not_mem_nil c)
  | cons c0 cs ih =>
    intro acc c hc hne
    rcases List.mem_cons.mp hc with heq | hmem
    · subst heq
      have hfail : yoloProcessClip cat_map acc c =
          .error ("AssertionError: " ++ c.name) := by
        unfold yoloProcessClip
        rw [if_neg hne]
      simp only [yoloReadClips]
      rw [hfail]
      rfl
    · cases hpc : yoloProcessClip cat_map acc c0 with
      | error e =>
        simp only [yoloReadClips]
        rw [hpc]
        rfl
      | ok acc2 =>
        simp only [yoloReadClips]
        rw [hpc]
        exact ih acc2 c hmem hne

/-- C6: during the YOLO scan, any clip whose label-file count differs from
its still-file count makes the whole dataset load fail (the assert on
yolo_dataset.py line 95 aborts `_read_data`); no record list is produced. -/
theorem c6_label_still_count_mismatch_fatal (categories : List (String × ℤ))
    (clips : List YoloClip) (c : YoloClip) (hc : c ∈ clips)
    (hne : c.frames.length ≠ c.still_count) :
    isErr (yoloReadData categories clips) = true :=
  yoloReadClips_err_of_mismatch (yoloCatMap categories) clips [] c hc hne

/-- Concrete clip with 3 label files and 2 still files for the C6 witness. -/
def yoloBadClip : YoloClip :=
  ⟨"clip0",
   [⟨"labels_0001", [], ⟨480, 640, 3⟩⟩,
    ⟨"labels_0002", [], ⟨480, 640, 3⟩⟩,
    ⟨"labels_0003", [], ⟨480, 640, 3⟩⟩], 2⟩

theorem c6_label_still_count_mismatch_fatal_witness :
    yoloBadClip ∈ [yoloBadClip] ∧
    yoloBadClip.frames.length ≠ yoloBadClip.still_count ∧
    isErr (yoloReadData [] [yoloBadClip]) = true :=
  ⟨List.mem_singleton.mpr rfl, by decide,
   c6_label_still_count_mismatch_fatal [] [yoloBadClip] yoloBadClip
     (List.mem_singleton.mpr rfl) (by decide)⟩

/-! ## C1 -/

/-- C1: for a valid index (one where record lookup succeeds), with no
target-encoding transform configured, `_getitem` returns exactly the
post-transform boxes divided coordinatewise by the output image's width
(shape[1], the code's `width`) and height (shape[2], the code's `height`);
and when every post-transform pixel box lies within those bounds, every
coordinate of every returned box lies in [0, 1]. -/
theorem c1_served_boxes_normalized_unit {ι : Type} (d : DatasetModel ι)
    (index : ℤ) (info : AnnotationRecord ι)
    (hidx : pyGet d.data index = some info)
    (htt : d.target_transform = none)
    (hW : 0 < (d.served info).1.shape1)
    (hH : 0 < (d.served info).1.shape2)
    (hbound : ∀ b ∈ (d.served info).2.1,
      0 ≤ b.x0 ∧ b.x0 ≤ ((d.served info).1.shape1 : ℚ) ∧
      0 ≤ b.y0 ∧ b.y0 ≤ ((d.served info).1.shape2 : ℚ) ∧
      0 ≤ b.x1 ∧ b.x1 ≤ ((d.served info).1.shape1 : ℚ) ∧
      0 ≤ b.y1 ∧ b.y1 ≤ ((d.served info).1.shape2 : ℚ)) :
    d.getitem index = some
      { image_ref := info.image_ref
        image := (d.served info).1
        boxes := normalizeStep (d.served info).1 (d.served info).2.1
        labels := (d.served info).2.2 } ∧
    ∀ b ∈ normalizeStep (d.served info).1 (d.served info).2.1,
      0 ≤ b.x0 ∧ b.x0 ≤ 1 ∧ 0 ≤ b.y0 ∧ b.y0 ≤ 1 ∧
      0 ≤ b.x1 ∧ b.x1 ≤ 1 ∧ 0 ≤ b.y1 ∧ b.y1 ≤ 1 := by
  constructor
  · unfold DatasetModel.getitem
    rw [hidx]
    simp only [DatasetModel.targetStep, htt]
  · intro b hb
    unfold normalizeStep at hb
    rcases List.mem_map.mp hb with ⟨b0, hb0, hbeq⟩
    obtain ⟨h1, h2, h3, h4, h5, h6, h7, h8⟩ := hbound b0 hb0
    have hWq : (0 : ℚ) < ((d.served info).1.shape1 : ℚ) := by exact_mod_cast hW
    have hHq : (0 : ℚ) < ((d.served info).1.shape2 : ℚ) := by exact_mod_cast hH
    subst hbeq
    refine ⟨div_nonneg h1 (le_of_lt hWq), (div_le_one hWq).mpr h2,
      div_nonneg h3 (le_of_lt hHq), (div_le_one hHq).mpr h4,
      div_nonneg h5 (le_of_lt hWq), (div_le_one hWq).mpr h6,
      div_nonneg h7 (le_of_lt hHq), (div_le_one hHq).mpr h8⟩

/-- Concrete record and dataset for the C1 witness. -/
def rC1 : AnnotationRecord ℤ :=
  { image_ref := 1, boxes := [⟨0, 0, 10, 10⟩], labels := [1] }

def dsC1 : DatasetModel ℤ :=
  { data := [rC1]
    read_image := fun _ => ⟨3, 100, 200⟩
    transform := none
    target_transform := none }

theorem c1_served_boxes_normalized_unit_witness :
    pyGet dsC1.data 0 = some rC1 ∧
    dsC1.target_transform = none ∧
    0 < (dsC1.served rC1).1.shape1 ∧
    0 < (dsC1.served rC1).1.shape2 ∧
    (dsC1.getitem 0 = some
      { image_ref := rC1.image_ref
        image := (dsC1.served rC1).1
        boxes := normalizeStep (dsC1.served rC1).1 (dsC1.served rC1).2.1
        labels := (dsC1.served rC1).2.2 } ∧
    ∀ b ∈ normalizeStep (dsC1.served rC1).1 (dsC1.served rC1).2.1,
      0 ≤ b.x0 ∧ b.x0 ≤ 1 ∧ 0 ≤ b.y0 ∧ b.y0 ≤ 1 ∧
      0 ≤ b.x1 ∧ b.x1 ≤ 1 ∧ 0 ≤ b.y1 ∧ b.y1 ≤ 1) :=
  ⟨rfl, rfl, by decide, by decide,
    c1_served_boxes_normalized_unit dsC1 0 rC1 rfl rfl (by decide) (by decide)
      (by decide)⟩

/-! ## C8 -/

theorem cocoReadData_mem_aux :
    ∀ (entries : List CocoImageEntry)
      (acc : List (AnnotationRecord ℤ) × ℕ × List ℤ) (r : AnnotationRecord ℤ),
      r ∈ (entries.foldl cocoReadStep acc).1 →
      r ∈ acc.1 ∨ ∃ e ∈ entries, r = cocoRecordOf e := by
  intro entries
  induction entries with
  | nil => intro acc r hr; exact Or.inl hr
  | cons e es ih =>
    intro acc r hr
    rw [List.foldl_cons] at hr
    rcases ih (cocoReadStep acc e) r hr with hin | ⟨e2, he2, hr2⟩
    · by_cases he : e.file_on_disk
      · simp only [cocoReadStep, if_pos he, List.mem_append,
          List.mem_singleton] at hin
        rcases hin with h | h
        · exact Or.inl h
        · exact Or.inr ⟨e, by simp, h⟩
      · simp only [cocoReadStep, if_neg he] at hin
        exact Or.inl hin
    · exact Or.inr ⟨e2, by simp [he2], hr2⟩

theorem cocoReadData_retains (xs ys : List CocoImageEntry) (e : CocoImageEntry)
    (he : e.file_on_disk = true) :
    cocoRecordOf e ∈ (cocoReadData (xs ++ e :: ys)).1 := by
  have hL : (cocoReadData (xs ++ e :: ys)).1 =
      (cocoReadData xs).1 ++ [cocoRecordOf e] ++ (cocoReadData ys).1 := by
    show ((xs ++ e :: ys).foldl cocoReadStep ([], 0, [])).1 = _
    rw [List.foldl_append, List.foldl_cons]
    show (List.foldl cocoReadStep (cocoReadStep (cocoReadData xs) e) ys).1 = _
    rw [show cocoReadStep (cocoReadData xs) e =
        ((cocoReadData xs).1 ++ [cocoRecordOf e], (cocoReadData xs).2.1,
         (cocoReadData xs).2.2) from by simp [cocoReadStep, he]]
    rw [cocoReadData_shift ys]
  rw [hL]
  simp

theorem yoloProcessRows_len (cat_map : List (ℤ × ℕ)) (image : Image) :
    ∀ (rows : List YoloRow) (acc res : List Box × List ℤ),
      yoloProcessRows cat_map image acc rows = .ok res →
      acc.1.length = acc.2.length → res.1.length = res.2.length := by
  intro rows
  induction rows with
  | nil =>
    intro acc res h hacc
    simp only [yoloProcessRows, Except.ok.injEq] at h
    rw [← h]
    exact hacc
  | cons r rs ih =>
    intro acc res h hacc
    simp only [yoloProcessRows] at h
    cases hf : dictFind cat_map r.raw_cat with
    | none =>
      rw [hf] at h
      exact absurd h (by simp)
    | some c =>
      rw [hf] at h
      exact ih _ res h (by simp [hacc])

theorem yoloProcessFrame_len (cat_map : List (ℤ × ℕ)) (clip_name : String)
    (f : YoloFrame) (rec : AnnotationRecord String)
    (h : yoloProcessFrame cat_map clip_name f = .ok rec) :
    rec.boxes.length = rec.labels.length := by
  unfold yoloProcessFrame at h
  cases hr : yoloProcessRows cat_map f.image ([], []) f.rows with
  | error e =>
    rw [hr] at h
    exact absurd h (by simp)
  | ok bl =>
    obtain ⟨bs, ls⟩ := bl
    rw [hr] at h
    simp only [Except.ok.injEq] at h
    rw [← h]
    exact yoloProcessRows_len cat_map f.image f.rows ([], []) (bs, ls) hr rfl

theorem yoloProcessFrames_len (cat_map : List (ℤ × ℕ)) (clip_name : String) :
    ∀ (fs : List YoloFrame) (acc data : List (AnnotationRecord String)),
      yoloProcessFrames cat_map clip_name acc fs = .ok data →
      (∀ r ∈ acc, r.boxes.length = r.labels.length) →
      ∀ r ∈ data, r.boxes.length = r.labels.length := by
  intro fs
  induction fs with
  | nil =>
    intro acc data h hacc
    simp only [yoloProcessFrames, Except.ok.injEq] at h
    rw [← h]
    exact hacc
  | cons f fs ih =>
    intro acc data h hacc
    simp only [yoloProcessFrames] at h
    cases hf : yoloProcessFrame cat_map clip_name f with
    | error e =>
      rw [hf] at h
      exact absurd h (by simp)
    | ok rec =>
      rw [hf] at h
      refine ih _ data h ?_
      intro r hr
      rcases List.mem_append.mp hr with h1 | h2
      · exact hacc r h1
      · rw [List.mem_singleton.mp h2]
        exact yoloProcessFrame_len cat_map clip_name f rec hf

theorem yoloProcessClip_len (cat_map : List (ℤ × ℕ))
    (acc data : List (AnnotationRecord String)) (clip : YoloClip)
    (h : yoloProcessClip cat_map acc clip = .ok data)
    (hacc : ∀ r ∈ acc, r.boxes.length = r.labels.length) :
    ∀ r ∈ data, r.boxes.length = r.labels.length := by
  unfold yoloProcessClip at h
  by_cases hc : clip.frames.length = clip.still_count
  · rw [if_pos hc] at h
    exact yoloProcessFrames_len cat_map clip.name clip.frames acc data h hacc
  · rw [if_neg hc] at h
    exact absurd h (by simp)

theorem yoloReadClips_len (cat_map : List (ℤ × ℕ)) :
    ∀ (clips : List YoloClip) (acc data : List (AnnotationRecord String)),
      yoloReadClips cat_map acc clips = .ok data →
      (∀ r ∈ acc, r.boxes.length = r.labels.length) →
      ∀ r ∈ data, r.boxes.length = r.labels.length := by
  intro clips
  induction clips with
  | nil =>
    intro acc data h hacc
    simp only [yoloReadClips, Except.ok.injEq] at h
    rw [← h]
    exact hacc
  | cons c cs ih =>
    intro acc data h hacc
    simp only [yoloReadClips] at h
    cases hc : yoloProcessClip cat_map acc c with
    | error e =>
      rw [hc] at h
      exact absurd h (by simp)
    | ok acc2 =>
      rw [hc] at h
      exact ih acc2 data h (yoloProcessClip_len cat_map acc acc2 c hc hacc)

/-- C8: every record retained by either reader has as many boxes as labels,
and a zero-annotation image (COCO) or zero-row label file (YOLO) still
yields a retained, empty-but-valid record rather than an error. -/
theorem c8_box_label_counts (entries : List CocoImageEntry)
    (categories : List (String × ℤ)) (clips : List YoloClip) :
    (∀ r ∈ (cocoReadData entries).1, r.boxes.length = r.labels.length) ∧
    (∀ data, yoloReadData categories clips = .ok data →
      ∀ r ∈ data, r.boxes.length = r.labels.length) ∧
    (∀ e ∈ entries, e.file_on_disk = true → e.anns = [] →
      ({ image_ref := e.image_id, boxes := [], labels := [] } :
        AnnotationRecord ℤ) ∈ (cocoReadData entries).1) ∧
    (∀ (clip_name : String) (f : YoloFrame), f.rows = [] →
      yoloProcessFrame (yoloCatMap categories) clip_name f =
        .ok { image_ref := yoloImagePath clip_name f, boxes := [], labels := [] }) := by
  refine ⟨?_, ?_, ?_, ?_⟩
  · intro r hr
    rcases cocoReadData_mem_aux entries ([], 0, []) r hr with hin | ⟨e, _, hre⟩
    · exact absurd hin (List.not_mem_nil r)
    · rw [hre]
      simp [cocoRecordOf]
  · intro data h
    exact yoloReadClips_len (yoloCatMap categories) clips [] data h
      (by intro r hr; exact absurd hr (List.not_mem_nil r))
  · intro e he hdisk hanns
    obtain ⟨xs, ys, hsplit⟩ := List.append_of_mem he
    have := cocoReadData_retains xs ys e hdisk
    rw [← hsplit] at this
    have hrec : cocoRecordOf e =
        { image_ref := e.image_id, boxes := [], labels := [] } := by
      simp [cocoRecordOf, hanns]
    rw [hrec] at this
    exact this
  · intro clip_name f hrows
    simp [yoloProcessFrame, yoloProcessRows, hrows]

/-- Concrete YOLO input for the C8 witness: one category, one clip of one
frame with one row referencing it, plus a row-free frame. -/
def yoloCats : List (String × ℤ) := [("person", 5)]

def yoloGoodFrame : YoloFrame :=
  ⟨"labels_0001", [⟨5, 1/2, 1/2, 1/2, 1/2⟩], ⟨100, 200, 3⟩⟩

def yoloGoodClip : YoloClip := ⟨"clipA", [yoloGoodFrame], 1⟩

def yoloGoodRec : AnnotationRecord String :=
  ⟨yoloImagePath "clipA" yoloGoodFrame, [⟨50, 25, 150, 75⟩], [1]⟩

def yoloEmptyFrame : YoloFrame := ⟨"labels_0002", [], ⟨100, 200, 3⟩⟩

theorem c8_box_label_counts_witness :
    (cocoRecordOf cocoE1).boxes.length = (cocoRecordOf cocoE1).labels.length ∧
    yoloReadData yoloCats [yoloGoodClip] = .ok [yoloGoodRec] ∧
    yoloGoodRec.boxes.length = yoloGoodRec.labels.length ∧
    cocoE1.file_on_disk = true ∧ cocoE3.anns = [] ∧
    ({ image_ref := cocoE3.image_id, boxes := [], labels := [] } :
      AnnotationRecord ℤ) ∈ (cocoReadData [cocoE1, cocoE3]).1 ∧
    yoloEmptyFrame.rows = [] ∧
    yoloProcessFrame (yoloCatMap yoloCats) "clipA" yoloEmptyFrame =
      .ok { image_ref := yoloImagePath "clipA" yoloEmptyFrame,
            boxes := [], labels := [] } := by
  have hok : yoloReadData yoloCats [yoloGoodClip] = .ok [yoloGoodRec] := by
    norm_num [yoloReadData, yoloReadClips, yoloProcessClip, yoloProcessFrames,
      yoloProcessFrame, yoloProcessRows, yoloRowBox, yolo_to_xyxy,
      xyxy_norm_to_abs, yoloCatMap, yoloCats, yoloGoodClip, yoloGoodFrame,
      yoloGoodRec, yoloImagePath, dictExtend, dictInsert, dictFind, List.find?]
  refine ⟨(c8_box_label_counts [cocoE1, cocoE3] yoloCats [yoloGoodClip]).1
      (cocoRecordOf cocoE1)
      (show cocoRecordOf cocoE1 ∈
          [cocoRecordOf cocoE1, cocoRecordOf cocoE3] from
        List.mem_cons_self _ _),
    hok,
    (c8_box_label_counts [cocoE1, cocoE3] yoloCats [yoloGoodClip]).2.1
      [yoloGoodRec] hok yoloGoodRec (List.mem_cons_self _ _),
    rfl, rfl,
    (c8_box_label_counts [cocoE1, cocoE3] yoloCats [yoloGoodClip]).2.2.1
      cocoE3 (List.mem_cons_of_mem _ (List.mem_cons_self _ _)) rfl rfl,
    rfl,
    (c8_box_label_counts [cocoE1, cocoE3] yoloCats [yoloGoodClip]).2.2.2
      "clipA" yoloEmptyFrame rfl⟩

/-! ## C9 -/

/-- C9: for a valid index, `_getitem` leaves the stored record untouched:
the returned box/label cells are freshly allocated (`copy.copy`), distinct
from the record's cells, the record's pixel boxes still read back unchanged
afterwards, and the in-place normalization lands only in the returned
copy. -/
theorem c9_getitem_preserves_record (bs : Store (List Box))
    (ls : Store (List ℤ)) (records : List StoredRecord) (index : ℤ)
    (rec : StoredRecord) (hidx : pyGet records index = some rec)
    (hb : rec.boxesRef < bs.cells.length)
    (hl : rec.labelsRef < ls.cells.length) :
    ∃ bs2 ls2 bref lref,
      getitemStore bs ls records index = some (bs2, ls2, bref, lref) ∧
      bs2.read rec.boxesRef = bs.read rec.boxesRef ∧
      ls2.read rec.labelsRef = ls.read rec.labelsRef ∧
      bref ≠ rec.boxesRef ∧ lref ≠ rec.labelsRef ∧
      bs2.read bref =
        some (normalizeStep rec.image ((bs.read rec.boxesRef).getD [])) := by
  unfold getitemStore
  rw [hidx]
  refine ⟨_, _, _, _, rfl, ?_, ?_, ?_, ?_, ?_⟩
  · show (List.set (bs.cells ++ [(bs.read rec.boxesRef).getD []])
        bs.cells.length _).get? rec.boxesRef = bs.cells.get? rec.boxesRef
    rw [List.get?_set_ne _ _ (by omega)]
    exact List.get?_append hb
  · show (ls.cells ++ [(ls.read rec.labelsRef).getD []]).get? rec.labelsRef =
      ls.cells.get? rec.labelsRef
    exact List.get?_append hl
  · show bs.cells.length ≠ rec.boxesRef
    omega
  · show ls.cells.length ≠ rec.labelsRef
    omega
  · show (List.set (bs.cells ++ [(bs.read rec.boxesRef).getD []])
        bs.cells.length _).get? bs.cells.length = _
    rw [List.get?_set_eq]
    rw [List.get?_concat_length]
    have hrd : (bs.alloc ((bs.read rec.boxesRef).getD [])).1.read
        (bs.alloc ((bs.read rec.boxesRef).getD [])).2 =
        some ((bs.read rec.boxesRef).getD []) :=
      List.get?_concat_length _ _
    simp [hrd]

/-- Concrete stores and record for the C9 witness. -/
def bsW : Store (List Box) := ⟨[[⟨0, 0, 10, 10⟩]]⟩

def lsW : Store (List ℤ) := ⟨[[1]]⟩

def recW : StoredRecord := ⟨0, 0, ⟨3, 100, 200⟩⟩

theorem c9_getitem_preserves_record_witness :
    pyGet [recW] 0 = some recW ∧
    recW.boxesRef < bsW.cells.length ∧
    recW.labelsRef < lsW.cells.length ∧
    ∃ bs2 ls2 bref lref,
      getitemStore bsW lsW [recW] 0 = some (bs2, ls2, bref, lref) ∧
      bs2.read recW.boxesRef = bsW.read recW.boxesRef ∧
      ls2.read recW.labelsRef = lsW.read recW.labelsRef ∧
      bref ≠ recW.boxesRef ∧ lref ≠ recW.labelsRef ∧
      bs2.read bref =
        some (normalizeStep recW.image ((bsW.read recW.boxesRef).getD [])) :=
  ⟨rfl, by decide, by decide,
    c9_getitem_preserves_record bsW lsW [recW] 0 recW rfl (by decide) (by decide)⟩

/-! ## C2 -/

theorem zip_get?_eq {α β : Type} :
    ∀ (l1 : List α) (l2 : List β) (i : ℕ) (a : α) (b : β),
      l1.get? i = some a → l2.get? i = some b →
      (l1.zip l2).get? i = some (a, b) := by
  intro l1
  induction l1 with
  | nil => intro l2 i a b h _; simp at h
  | cons x xs ih =>
    intro l2 i a b h1 h2
    cases l2 with
    | nil => simp at h2
    | cons y ys =>
      cases i with
      | zero =>
        rw [List.get?_cons_zero, Option.some.injEq] at h1
        rw [List.get?_cons_zero, Option.some.injEq] at h2
        rw [List.zip_cons_cons, List.get?_cons_zero, h1, h2]
      | succ n =>
        rw [List.get?_cons_succ] at h1 h2
        rw [List.zip_cons_cons, List.get?_cons_succ]
        exact ih ys n a b h1 h2

theorem dictFind_of_get?_nodup {α β : Type} [DecidableEq α] :
    ∀ (l : List (α × β)) (i : ℕ) (p : α × β),
      (l.map Prod.fst).Nodup → l.get? i = some p →
      dictFind l p.1 = some p.2 := by
  intro l
  induction l with
  | nil => intro i p _ h; simp at h
  | cons q qs ih =>
    intro i p hnd hget
    cases i with
    | zero =>
      rw [List.get?_cons_zero, Option.some.injEq] at hget
      subst hget
      unfold dictFind
      rw [List.find?_cons_of_pos _ (by simp)]
      rfl
    | succ n =>
      rw [List.get?_cons_succ] at hget
      have hpin : p ∈ qs := List.get?_mem hget
      have hkey : p.1 ∈ qs.map Prod.fst := List.mem_map_of_mem _ hpin
      have hq : q.1 ∉ qs.map Prod.fst := by
        have h := hnd
        simp only [List.map_cons, List.nodup_cons] at h
        exact h.1
      have hne : q.1 ≠ p.1 := fun he => hq (he ▸ hkey)
      have hnd' : (qs.map Prod.fst).Nodup := by
        have h := hnd
        simp only [List.map_cons, List.nodup_cons] at h
        exact h.2
      unfold dictFind
      rw [List.find?_cons_of_neg _ (by simp [hne])]
      exact ih n p hnd' hget

theorem yoloProcessRows_ok_keys (cat_map : List (ℤ × ℕ)) (image : Image) :
    ∀ (rows : List YoloRow) (acc res : List Box × List ℤ),
      yoloProcessRows cat_map image acc rows = .ok res →
      ∀ r ∈ rows, dictFind cat_map r.raw_cat ≠ none := by
  intro rows
  induction rows with
  | nil => intro acc res _ r hr; exact absurd hr (List.not_mem_nil r)
  | cons r0 rs ih =>
    intro acc res h r hr
    simp only [yoloProcessRows] at h
    cases hf : dictFind cat_map r0.raw_cat with
    | none =>
      rw [hf] at h
      exact absurd h (by simp)
    | some c =>
      rw [hf] at h
      rcases List.mem_cons.mp hr with heq | hm
      · rw [heq, hf]
        simp
      · exact ih _ res h r hm

theorem yoloProcessFrame_ok_keys (cat_map : List (ℤ × ℕ)) (clip_name : String)
    (f : YoloFrame) (rec : AnnotationRecord String)
    (h : yoloProcessFrame cat_map clip_name f = .ok rec) :
    ∀ r ∈ f.rows, dictFind cat_map r.raw_cat ≠ none := by
  unfold yoloProcessFrame at h
  cases hr : yoloProcessRows cat_map f.image ([], []) f.rows with
  | error e =>
    rw [hr] at h
    exact absurd h (by simp)
  | ok bl => exact yoloProcessRows_ok_keys cat_map f.image f.rows ([], []) bl hr

theorem yoloProcessFrames_ok_keys (cat_map : List (ℤ × ℕ)) (clip_name : String) :
    ∀ (fs : List YoloFrame) (acc data : List (AnnotationRecord String)),
      yoloProcessFrames cat_map clip_name acc fs = .ok data →
      ∀ f ∈ fs, ∀ r ∈ f.rows, dictFind cat_map r.raw_cat ≠ none := by
  intro fs
  induction fs with
  | nil => intro acc data _ f hf; exact absurd hf (List.not_mem_nil f)
  | cons f0 fs ih =>
    intro acc data h f hf
    simp only [yoloProcessFrames] at h
    cases hpf : yoloProcessFrame cat_map clip_name f0 with
    | error e =>
      rw [hpf] at h
      exact absurd h (by simp)
    | ok rec =>
      rw [hpf] at h
      rcases List.mem_cons.mp hf with heq | hm
      · rw [heq]
        exact yoloProcessFrame_ok_keys cat_map clip_name f0 rec hpf
      · exact ih _ data h f hm

theorem yoloProcessClip_ok_keys (cat_map : List (ℤ × ℕ))
    (acc data : List (AnnotationRecord String)) (clip : YoloClip)
    (h : yoloProcessClip cat_map acc clip = .ok data) :
    ∀ f ∈ clip.frames, ∀ r ∈ f.rows, dictFind cat_map r.raw_cat ≠ none := by
  unfold yoloProcessClip at h
  by_cases hc : clip.frames.length = clip.still_count
  · rw [if_pos hc] at h
    exact yoloProcessFrames_ok_keys cat_map clip.name clip.frames acc data h
  · rw [if_neg hc] at h
    exact absurd h (by simp)

theorem yoloReadClips_ok_keys (cat_map : List (ℤ × ℕ)) :
    ∀ (clips : List YoloClip) (acc data : List (AnnotationRecord String)),
      yoloReadClips cat_map acc clips = .ok data →
      ∀ c ∈ clips, ∀ f ∈ c.frames, ∀ r ∈ f.rows,
        dictFind cat_map r.raw_cat ≠ none := by
  intro clips
  induction clips with
  | nil => intro acc data _ c hc; exact absurd hc (List.not_mem_nil c)
  | cons c0 cs ih =>
    intro acc data h c hc
    simp only [yoloReadClips] at h
    cases hpc : yoloProcessClip cat_map acc c0 with
    | error e =>
      rw [hpc] at h
      exact absurd h (by simp)
    | ok acc2 =>
      rw [hpc] at h
      rcases List.mem_cons.mp hc with heq | hm
      · rw [heq]
        exact yoloProcessClip_ok_keys cat_map acc acc2 c0 hpc
      · exact ih acc2 data h c hm

/-- C2: with distinct raw ids, `cat_map` sends the i-th raw category id of
the summary file to canonical index i+1 (1-based, file order); and any label
row whose raw id is absent from `cat_map` (KeyError on yolo_dataset.py
line 122) makes the whole dataset load fail. -/
theorem c2_cat_map_contiguous_and_missing_fatal
    (categories : List (String × ℤ))
    (hnd : (categories.map Prod.snd).Nodup) :
    (∀ (i : ℕ) (cat : String × ℤ), categories.get? i = some cat →
      dictFind (yoloCatMap categories) cat.2 = some (i + 1)) ∧
    (∀ (clips : List YoloClip) (c : YoloClip) (f : YoloFrame) (r : YoloRow),
      c ∈ clips → f ∈ c.frames → r ∈ f.rows →
      dictFind (yoloCatMap categories) r.raw_cat = none →
      isErr (yoloReadData categories clips) = true) := by
  constructor
  · intro i cat hget
    have hkeys : ((categories.map Prod.snd).zip
        (List.range' 1 categories.length)).map Prod.fst =
        categories.map Prod.snd :=
      List.map_fst_zip _ _ (by simp)
    have hext : yoloCatMap categories =
        (categories.map Prod.snd).zip (List.range' 1 categories.length) := by
      unfold yoloCatMap
      rw [dictExtend_of_disjoint _ [] (by rw [hkeys]; exact hnd)
        (by intro k _ hk; simp at hk)]
      simp
    have hi : i < categories.length := by
      by_contra hni
      rw [List.get?_eq_none.mpr (by omega)] at hget
      exact absurd hget (by simp)
    have h1 : (categories.map Prod.snd).get? i = some cat.2 := by
      rw [List.get?_map, hget]
      rfl
    have h2 : (List.range' 1 categories.length).get? i = some (1 + i) := by
      have := List.get?_range' 1 1 hi
      simpa using this
    have h3 := zip_get?_eq _ _ i cat.2 (1 + i) h1 h2
    have h4 := dictFind_of_get?_nodup _ i (cat.2, 1 + i)
      (by rw [hkeys]; exact hnd) h3
    rw [hext]
    rw [show i + 1 = 1 + i from by omega]
    exact h4
  · intro clips c f r hc hf hr hnone
    cases hres : yoloReadData categories clips with
    | error e => rfl
    | ok data =>
      exact absurd hnone
        (yoloReadClips_ok_keys (yoloCatMap categories) clips [] data hres
          c hc f hf r hr)

/-- YOLO row whose raw category id 99 is absent from the summary table. -/
def yoloBadRow : YoloRow := ⟨99, 1/2, 1/2, 1/2, 1/2⟩

def yoloBadRowFrame : YoloFrame := ⟨"labels_0003", [yoloBadRow], ⟨100, 200, 3⟩⟩

def yoloBadRowClip : YoloClip := ⟨"clipB", [yoloBadRowFrame], 1⟩

theorem c2_cat_map_contiguous_and_missing_fatal_witness :
    (yoloCats.map Prod.snd).Nodup ∧
    yoloCats.get? 0 = some ("person", 5) ∧
    dictFind (yoloCatMap yoloCats) (("person", (5 : ℤ)) : String × ℤ).2 =
      some (0 + 1) ∧
    dictFind (yoloCatMap yoloCats) yoloBadRow.raw_cat = none ∧
    isErr (yoloReadData yoloCats [yoloBadRowClip]) = true := by
  have hnd : (yoloCats.map Prod.snd).Nodup := by decide
  refine ⟨hnd, rfl, ?_, rfl, ?_⟩
  · exact (c2_cat_map_contiguous_and_missing_fatal yoloCats hnd).1 0
      ("person", 5) rfl
  · exact (c2_cat_map_contiguous_and_missing_fatal yoloCats hnd).2
      [yoloBadRowClip] yoloBadRowClip yoloBadRowFrame yoloBadRow
      (List.mem_cons_self _ _) (List.mem_cons_self _ _)
      (List.mem_cons_self _ _) rfl

/-! ## C4 -/

theorem map_keep_of_ne {α β : Type} [DecidableEq α] (k : α) (w : β) :
    ∀ (l : List (α × β)), k ∉ l.map Prod.fst →
      l.map (fun p => if p.1 = k then (p.1, w) else p) = l := by
  intro l
  induction l with
  | nil => intro _; rfl
  | cons p ps ih =>
    intro h
    have h' := h
    simp only [List.map_cons, List.mem_cons, not_or] at h'
    obtain ⟨hk1, hk2⟩ := h'
    simp only [List.map_cons]
    rw [if_neg (fun he => hk1 he.symm)]
    rw [ih hk2]

theorem dictInsert_update_middle {α β : Type} [DecidableEq α]
    (done todo : List (α × β)) (k : α) (v w : β)
    (hd : k ∉ done.map Prod.fst) (ht : k ∉ todo.map Prod.fst) :
    dictInsert (done ++ (k, v) :: todo) k w = done ++ (k, w) :: todo := by
  unfold dictInsert
  rw [if_pos (by simp)]
  rw [List.map_append, List.map_cons]
  rw [map_keep_of_ne k w done hd, map_keep_of_ne k w todo ht]
  simp

theorem dictExtend_update_enum {α β : Type} [DecidableEq α] :
    ∀ (todo done : List (α × β)) (ws : List β),
      ws.length = todo.length →
      ((done ++ todo).map Prod.fst).Nodup →
      dictExtend (done ++ todo) ((todo.map Prod.fst).zip ws) =
        done ++ (todo.map Prod.fst).zip ws := by
  intro todo
  induction todo with
  | nil =>
    intro done ws hw _
    have hws : ws = [] := List.eq_nil_of_length_eq_zero (by simpa using hw)
    subst hws
    simp [dictExtend]
  | cons p ps ih =>
    intro done ws hw hnd
    cases ws with
    | nil => simp at hw
    | cons w ws2 =>
      have hkeys : ((done ++ p :: ps).map Prod.fst) =
          done.map Prod.fst ++ p.1 :: ps.map Prod.fst := by simp
      rw [hkeys] at hnd
      rcases List.nodup_append.mp hnd with ⟨hnd1, hnd2, hdisj⟩
      have hd : p.1 ∉ done.map Prod.fst := by
        intro hin
        exact (hdisj hin) (List.mem_cons_self _ _)
      have ht : p.1 ∉ ps.map Prod.fst := (List.nodup_cons.mp hnd2).1
      have hmid : dictInsert (done ++ p :: ps) p.1 w =
          done ++ (p.1, w) :: ps := by
        have h := dictInsert_update_middle done ps p.1 p.2 w hd ht
        simpa using h
      simp only [List.map_cons, List.zip_cons_cons, dictExtend, List.foldl_cons]
      rw [hmid]
      have hassoc : done ++ (p.1, w) :: ps = (done ++ [(p.1, w)]) ++ ps := by
        simp
      rw [hassoc]
      have hnd3 : (((done ++ [(p.1, w)]) ++ ps).map Prod.fst).Nodup := by
        have heq : ((done ++ [(p.1, w)]) ++ ps).map Prod.fst =
            done.map Prod.fst ++ p.1 :: ps.map Prod.fst := by simp
        rw [heq]
        exact hnd
      have hrec := ih ((done ++ [(p.1, w)])) ws2 (by simpa using hw) hnd3
      simp only [dictExtend] at hrec
      rw [hrec]
      simp

/-- C4: for both variants the class catalog starts with "BACKGROUND"
(whatever the category order), and the name → index dict is the exact
enumeration of the catalog: the name at position i maps to i. -/
theorem c4_background_first_and_exact_enumeration
    (pure_class_names : List String) (categories : List (String × ℤ))
    (hcoco : (cocoClassNames pure_class_names).Nodup)
    (hyolo : ("BACKGROUND" :: categories.map Prod.fst).Nodup) :
    (cocoClassNames pure_class_names).get? 0 = some "BACKGROUND" ∧
    (∀ (i : ℕ) (name : String),
      (cocoClassNames pure_class_names).get? i = some name →
      dictFind (cocoClassDict (cocoClassNames pure_class_names)) name = some i) ∧
    (yoloClassNames categories).get? 0 = some "BACKGROUND" ∧
    (∀ (i : ℕ) (name : String),
      (yoloClassNames categories).get? i = some name →
      dictFind (yoloClassDict categories) name = some (i : ℤ)) := by
  have hcompose : (Prod.fst ∘ fun p : ℕ × String => (p.2, p.1)) = Prod.snd := rfl
  have hkeysc : ((cocoClassNames pure_class_names).enum.map
      (fun p => (p.2, p.1))).map Prod.fst = cocoClassNames pure_class_names := by
    rw [List.map_map, hcompose]
    exact List.enum_map_snd _
  have hdictc : cocoClassDict (cocoClassNames pure_class_names) =
      (cocoClassNames pure_class_names).enum.map (fun p => (p.2, p.1)) := by
    unfold cocoClassDict
    rw [dictExtend_of_disjoint _ [] (by rw [hkeysc]; exact hcoco)
      (by intro k _ hk; simp at hk)]
    simp
  have hB : "BACKGROUND" ∉ categories.map Prod.fst :=
    (List.nodup_cons.mp hyolo).1
  have hndp : (categories.map Prod.fst).Nodup := (List.nodup_cons.mp hyolo).2
  have hmerged : dictExtend [("BACKGROUND", (0 : ℤ))] categories =
      ("BACKGROUND", (0 : ℤ)) :: categories := by
    rw [dictExtend_of_disjoint _ _ hndp]
    · simp
    · intro k hk hmem
      simp only [List.map_cons, List.map_nil, List.mem_singleton] at hmem
      exact hB (hmem ▸ hk)
  have hdicty : yoloClassDict categories =
      ((("BACKGROUND", (0 : ℤ)) :: categories).map Prod.fst).zip
        ((List.range (("BACKGROUND", (0 : ℤ)) :: categories).length).map
          Int.ofNat) := by
    simp only [yoloClassDict]
    rw [hmerged]
    have hup := dictExtend_update_enum (("BACKGROUND", (0 : ℤ)) :: categories)
      [] ((List.range (("BACKGROUND", (0 : ℤ)) :: categories).length).map
        Int.ofNat) (by simp) (by simpa using hyolo)
    simpa using hup
  have hkeyy : ((("BACKGROUND", (0 : ℤ)) :: categories).map Prod.fst) =
      "BACKGROUND" :: categories.map Prod.fst := by simp
  have hnamesy : yoloClassNames categories =
      "BACKGROUND" :: categories.map Prod.fst := by
    unfold yoloClassNames
    rw [hdicty]
    rw [List.map_fst_zip _ _ (by simp)]
    exact hkeyy
  refine ⟨rfl, ?_, ?_, ?_⟩
  · intro i name hget
    have hi : i < (cocoClassNames pure_class_names).length := by
      by_contra hni
      rw [List.get?_eq_none.mpr (by omega)] at hget
      exact absurd hget (by simp)
    have henum : (cocoClassNames pure_class_names).enum.get? i =
        some (i, name) := by
      rw [List.enum_eq_zip_range]
      exact zip_get?_eq _ _ i i name (List.get?_range (by simpa using hi)) hget
    have hpairs : ((cocoClassNames pure_class_names).enum.map
        (fun p => (p.2, p.1))).get? i = some (name, i) := by
      rw [List.get?_map, henum]
      rfl
    have := dictFind_of_get?_nodup _ i (name, i)
      (by rw [hkeysc]; exact hcoco) hpairs
    rw [hdictc]
    exact this
  · rw [hnamesy]
    rfl
  · intro i name hget
    rw [hnamesy] at hget
    have hi : i < ("BACKGROUND" :: categories.map Prod.fst).length := by
      by_contra hni
      rw [List.get?_eq_none.mpr (by omega)] at hget
      exact absurd hget (by simp)
    have hws : ((List.range (("BACKGROUND", (0 : ℤ)) :: categories).length).map
        Int.ofNat).get? i = some (Int.ofNat i) := by
      rw [List.get?_map]
      rw [List.get?_range (by simpa using hi)]
      rfl
    have hzip := zip_get?_eq
      ((("BACKGROUND", (0 : ℤ)) :: categories).map Prod.fst)
      ((List.range (("BACKGROUND", (0 : ℤ)) :: categories).length).map
        Int.ofNat) i name (Int.ofNat i) (by rw [hkeyy]; exact hget) hws
    have := dictFind_of_get?_nodup _ i (name, Int.ofNat i)
      (by rw [List.map_fst_zip _ _ (by simp), hkeyy]; exact hyolo) hzip
    rw [hdicty]
    exact this

theorem c4_background_first_and_exact_enumeration_witness :
    (cocoClassNames ["person", "car"]).Nodup ∧
    ("BACKGROUND" :: [("person", (5 : ℤ)), ("car", 9)].map Prod.fst).Nodup ∧
    (cocoClassNames ["person", "car"]).get? 0 = some "BACKGROUND" ∧
    (cocoClassNames ["person", "car"]).get? 2 = some "car" ∧
    dictFind (cocoClassDict (cocoClassNames ["person", "car"])) "car" =
      some 2 ∧
    (yoloClassNames [("person", (5 : ℤ)), ("car", 9)]).get? 0 =
      some "BACKGROUND" ∧
    (yoloClassNames [("person", (5 : ℤ)), ("car", 9)]).get? 1 =
      some "person" ∧
    dictFind (yoloClassDict [("person", (5 : ℤ)), ("car", 9)]) "person" =
      some ((1 : ℕ) : ℤ) := by
  have hc : (cocoClassNames ["person", "car"]).Nodup := by decide
  have hy : ("BACKGROUND" ::
      ([("person", (5 : ℤ)), ("car", 9)].map Prod.fst)).Nodup := by decide
  have hgc : (cocoClassNames ["person", "car"]).get? 2 = some "car" := rfl
  have hgy : (yoloClassNames [("person", (5 : ℤ)), ("car", 9)]).get? 1 =
      some "person" := by decide
  exact ⟨hc, hy,
    (c4_background_first_and_exact_enumeration ["person", "car"]
      [("person", 5), ("car", 9)] hc hy).1,
    hgc,
    (c4_background_first_and_exact_enumeration ["person", "car"]
      [("person", 5), ("car", 9)] hc hy).2.1 2 "car" hgc,
    (c4_background_first_and_exact_enumeration ["person", "car"]
      [("person", 5), ("car", 9)] hc hy).2.2.1,
    hgy,
    (c4_background_first_and_exact_enumeration ["person", "car"]
      [("person", 5), ("car", 9)] hc hy).2.2.2 1 "person" hgy⟩
